import Mathlib

/-!
Shallow embedding of the BDF/NDF implicit multistep integrator implemented in
src/pybamm/solvers/jax_bdf_solver.py, together with theorems settling the
frozen claims about it.

Conventions of the embedding:
* machine floats are modelled as exact real numbers (`ℝ`); state vectors of
  length n are functions `Fin n → ℝ`;
* the error norms fed to the order-change decision are modelled in `ℝ≥0∞`,
  since the source uses `np.inf` as the sentinel for the out-of-range
  candidate orders, and `x ** y` on nonnegative floats (with `0 ** neg = inf`
  and `inf ** neg = 0`) is `ENNReal.rpow`;
* the Newton corrector's control flow reads its linear-algebra results only
  through the scaled correction vectors `dy`; the embedding therefore takes
  the sequence of correction vectors produced by the LU solves as a
  parameter and computes their scaled root-mean-square norms exactly as the
  source does;
* `jax.numpy.empty` allocates a zero-filled array, so unset entries of the
  matrices built by `compute_R` are 0.
-/

open scoped BigOperators ENNReal

namespace JaxBdf

/-- MAX_ORDER constant from the source (line 12). -/
def MAX_ORDER : ℕ := 5

/-- NEWTON_MAXITER constant from the source (line 13). -/
def NEWTON_MAXITER : ℕ := 4

/-- MIN_FACTOR constant from the source (line 14), the value 0.2. -/
noncomputable def MIN_FACTOR : ℝ := 1 / 5

/-- MAX_FACTOR constant from the source (line 15). -/
noncomputable def MAX_FACTOR : ℝ := 10

/-- Number of rows of the difference table `D` as allocated by `_bdf_init`
(line 116 of the source): `np.empty((MAX_ORDER + 1, len(y0)))`. -/
def D_rows : ℕ := MAX_ORDER + 1

/-- Root-mean-square norm of a vector `v` scaled componentwise by `scale`,
as computed by `np.sqrt(np.mean((v / scale) ** 2))` in the source. -/
noncomputable def rms_norm {n : ℕ} (v scale : Fin n → ℝ) : ℝ :=
  Real.sqrt ((∑ i, (v i / scale i) ^ 2) / n)

/-- State threaded through the Newton corrector's while loop in
`_newton_iteration` (source lines 324-374): the iteration counter `k`, the
convergence flag, and the scaled norm of the previous correction
(initialised to the sentinel -1.0). The correction accumulator `d` and the
trial point `y` are also threaded by the source but are never read by the
control flow, which depends on `d` and `y` only through the scaled norms of
the solved corrections `dy`. -/
structure NewtonState (α : Type) where
  k : ℕ
  not_converged : Bool
  dy_norm_old : α

/-- One iteration of the Newton corrector's while loop (source lines
333-371), as a function of the Newton tolerance, the scaled norm `dy_norm`
of the correction solved in this iteration, and the loop state.
Python's boolean arithmetic `pred += q` is disjunction and `pred *= q` is
conjunction; the first assignment to `pred` on line 343 is dead (it is
overwritten on line 344 before being read). -/
def newton_body {α : Type} [LinearOrderedField α] (tol dy_norm : α)
    (s : NewtonState α) : NewtonState α :=
  let rate := dy_norm / s.dy_norm_old
  let pred1 : Prop :=
    (1 ≤ rate ∨ tol < rate ^ (NEWTON_MAXITER - s.k) / (1 - rate) * dy_norm) ∧
      s.dy_norm_old < -1
  let k1 := if pred1 then NEWTON_MAXITER else s.k
  let pred2 : Prop :=
    (0 < rate ∧ rate / (1 - rate) * dy_norm < tol) ∨ dy_norm = 0
  if pred2 then ⟨k1, false, s.dy_norm_old⟩ else ⟨k1 + 1, true, dy_norm⟩

/-- The Newton corrector's while loop (source lines 329-374). `dyn i` is
the scaled norm of the correction produced by the LU solve in the i-th
executed iteration; `fuel` bounds the number of iterations (the loop guard
`k < NEWTON_MAXITER` makes `NEWTON_MAXITER` fuel sufficient, since `k`
increases by at least one in every continuing iteration). -/
def newton_loop {α : Type} [LinearOrderedField α] (tol : α) (dyn : ℕ → α) :
    ℕ → ℕ → NewtonState α → NewtonState α
  | 0, _, s => s
  | fuel + 1, i, s =>
      if s.not_converged = true ∧ s.k < NEWTON_MAXITER then
        newton_loop tol dyn fuel (i + 1) (newton_body tol (dyn i) s)
      else s

/-- The Newton corrector `_newton_iteration` (source lines 313-375),
parametrised by the sequence `dys` of correction vectors produced by the LU
solves and by the prediction error-scale `scale_y0`; returns the
`not_converged` flag and the reported iteration count `k + 1`. -/
noncomputable def newton_iteration {n : ℕ} (tol : ℝ) (dys : ℕ → Fin n → ℝ)
    (scale_y0 : Fin n → ℝ) : Bool × ℕ :=
  let s := newton_loop tol (fun i => rms_norm (dys i) scale_y0)
    NEWTON_MAXITER 0 ⟨0, true, -1⟩
  (s.not_converged, s.k + 1)

/-- The `kappa` table of `_bdf_init` (source line 127):
`np.array([0, -0.1850, -1 / 9, -0.0823, -0.0415, 0])`, indexed by order. -/
noncomputable def kappa : ℕ → ℝ
  | 0 => 0
  | 1 => -(1850 / 10000)
  | 2 => -(1 / 9)
  | 3 => -(823 / 10000)
  | 4 => -(415 / 10000)
  | _ => 0

/-- The `gamma` table of `_bdf_init` (source line 128):
`np.hstack((0, np.cumsum(1 / np.arange(1, MAX_ORDER + 1))))`, so
`gamma j` is the j-th harmonic number. -/
noncomputable def gammaC (j : ℕ) : ℝ :=
  ∑ k ∈ Finset.range j, 1 / (k + 1 : ℝ)

/-- The `alpha` table of `_bdf_init` (source line 129):
`1.0 / ((1 - kappa) * gamma)`. -/
noncomputable def alphaC (j : ℕ) : ℝ :=
  1 / ((1 - kappa j) * gammaC j)

/-- The `error_const` table of `_bdf_init` (source line 131):
`kappa * gamma + 1 / np.arange(1, MAX_ORDER + 2)`. -/
noncomputable def error_const (j : ℕ) : ℝ :=
  kappa j * gammaC j + 1 / (j + 1 : ℝ)

/-- Entry `(i, j)` of the matrix `M` built inside `compute_R` (source lines
51-56): row 0 is all ones, rows `1..` have `(i - 1 - factor * j) / i` in
columns `1..` and keep the zero fill of `np.empty` in column 0. -/
noncomputable def compute_R_M (factor : ℝ) (i j : ℕ) : ℝ :=
  if i = 0 then 1
  else if j = 0 then 0
  else ((i : ℝ) - 1 - factor * j) / i

/-- Entry `(i, j)` of `compute_R(order, factor)` (source lines 39-59); the
`order` argument of the source function is unused.  `np.cumprod` along axis
0 makes entry `(i, j)` the product of column `j` of `M` down to row `i`. -/
noncomputable def compute_R (factor : ℝ) (i j : ℕ) : ℝ :=
  ∏ k ∈ Finset.range (i + 1), compute_R_M factor k j

/-- Entry `(i, j)` of the masked matrix `RU` used by `_update_step_size`
(source lines 278-284): the product `compute_R(order, factor) @ U` (where
`U = state['U'][0] = compute_R(_, 1)`) inside the top-left
`(order+1) × (order+1)` block, and the identity outside it. -/
noncomputable def RU_masked (order : ℕ) (factor : ℝ) (i j : ℕ) : ℝ :=
  if i ≤ order ∧ j ≤ order then
    ∑ m ∈ Finset.range (MAX_ORDER + 1), compute_R factor i m * compute_R 1 m j
  else if i = j then 1 else 0

/-- The difference-table transformation `D = np.dot(RU.T, D)` performed by
`_update_step_size` (source line 286).  The table is modelled as a function
from row indices to vectors; rows outside the `MAX_ORDER + 1` rows of the
source array are unreachable and kept unchanged. -/
noncomputable def rescale_D {n : ℕ} (order : ℕ) (factor : ℝ)
    (D : ℕ → Fin n → ℝ) : ℕ → Fin n → ℝ :=
  fun j =>
    if j < MAX_ORDER + 1 then
      ∑ k ∈ Finset.range (MAX_ORDER + 1), RU_masked order factor k j • D k
    else D j

/-- The predicted state `y0` computed by `_predict` (source lines 166-176):
the sum of the rows of `D` with index at most `order`. -/
noncomputable def predict_y0 {n : ℕ} (order : ℕ) (D : ℕ → Fin n → ℝ) :
    Fin n → ℝ :=
  ∑ j ∈ Finset.range (MAX_ORDER + 1), if j ≤ order then D j else 0

/-- The `psi` vector computed by `_update_psi` (source lines 179-193):
`alpha[order]` times the sum of `gamma[j] * D[j]` over `1 ≤ j ≤ order`. -/
noncomputable def update_psi {n : ℕ} (order : ℕ) (D : ℕ → Fin n → ℝ) :
    Fin n → ℝ :=
  alphaC order •
    ∑ j ∈ Finset.range (MAX_ORDER + 1),
      if 0 < j ∧ j ≤ order then gammaC j • D j else 0

/-- The backward cumulative-sum loop of `_update_difference_for_next_step`
(source lines 216-229): starting at row `i` and walking down to row 0, each
row receives the (already updated) row above it. -/
noncomputable def update_D_loop {n : ℕ} (D : ℕ → Fin n → ℝ) :
    ℕ → ℕ → Fin n → ℝ
  | 0 => fun r => if r = 0 then D 0 + D 1 else D r
  | i + 1 =>
      update_D_loop (fun r => if r = i + 1 then D (i + 1) + D (i + 2) else D r) i

/-- The difference-table update of `_update_difference_for_next_step`
(source lines 196-231): write `d - D[order+1]` to row `order+2`, write `d`
to row `order+1`, then run the backward cumulative-sum loop from row
`order` down to row 0. -/
noncomputable def update_difference_for_next_step {n : ℕ} (order : ℕ)
    (d : Fin n → ℝ) (D : ℕ → Fin n → ℝ) : ℕ → Fin n → ℝ :=
  update_D_loop
    (fun r =>
      if r = order + 1 then d
      else if r = order + 2 then d - D (order + 1) else D r)
    order

/-- The accumulation loop of `_bdf_interpolate` (source lines 575-588),
with `fuel = order - j` iterations remaining: multiply the running
time-ratio factor by `(t_eval - (t - h*j)) / (h * (1 + j))` and add
`D[j+1]` times the new factor to the running sum. -/
noncomputable def bdf_interpolate_loop {n : ℕ} (t h t_eval : ℝ)
    (D : ℕ → Fin n → ℝ) : ℕ → ℕ → ℝ → (Fin n → ℝ) → Fin n → ℝ
  | 0, _, _, acc => acc
  | fuel + 1, j, time_factor, acc =>
      let tf := time_factor * ((t_eval - (t - h * j)) / (h * (1 + j)))
      bdf_interpolate_loop t h t_eval D fuel (j + 1) tf (acc + tf • D (j + 1))

/-- The interpolant `_bdf_interpolate` (source lines 560-589), evaluated on
a difference table `D`, current time `t`, step `h` and order `order`, at
the target time `t_eval`. -/
noncomputable def bdf_interpolate {n : ℕ} (order : ℕ) (t h : ℝ)
    (D : ℕ → Fin n → ℝ) (t_eval : ℝ) : Fin n → ℝ :=
  bdf_interpolate_loop t h t_eval D order 0 1 (D 0)

/-- The solver state dictionary built by `_bdf_init` (source lines
102-146).  The Jacobian `J` and the LU factorisation of `I - c J` are also
stored by the source; no claim depends on them, and the corrector is
parametrised by the corrections the factorisation produces, so they are not
carried here. -/
structure BdfState (n : ℕ) where
  t : ℝ
  y : Fin n → ℝ
  atol : ℝ
  rtol : ℝ
  order : ℕ
  h : ℝ
  newton_tol : ℝ
  n_equal_steps : ℕ
  D : ℕ → Fin n → ℝ
  y0 : Fin n → ℝ
  scale_y0 : Fin n → ℝ
  psi : Fin n → ℝ
  c : ℝ

/-- Machine epsilon of IEEE double precision, `np.finfo(y0.dtype).eps`
(the source enables 64-bit floats on line 9). -/
noncomputable def EPS : ℝ := 2 ^ (-52 : ℤ)

/-- The initial-step heuristic `_select_initial_step` (source lines
149-163): one forward-Euler trial step, an error estimate
`d2 = sqrt(mean((f1 - f0) / scale))`, and the refined step
`min(100 * h0, h0 * d2 ** (-1/2))` for the hard-coded `order = 1`. -/
noncomputable def select_initial_step {n : ℕ}
    (f : ℝ → (Fin n → ℝ) → Fin n → ℝ) (t0 : ℝ) (y0 : Fin n → ℝ)
    (f0 : Fin n → ℝ) (h0 rtol atol : ℝ) : ℝ :=
  let scale := fun i => atol + |y0 i| * rtol
  let y1 := fun i => y0 i + h0 * f0 i
  let f1 := f (t0 + h0) y1
  let d2 := Real.sqrt ((∑ i, (f1 i - f0 i) / scale i) / n)
  let h1 := h0 * d2 ^ (-1 / ((1 : ℝ) + 1))
  min (100 * h0) h1

/-- The initializer `_bdf_init` (source lines 62-146): order 1, the refined
initial step, the Newton tolerance `max(10 * EPS / rtol, min(0.03,
rtol ** 0.5))`, the difference table with `y0` in row 0 and `f0 * h0` in
row 1 (rows 2.. keep the zero fill of `jax.numpy.empty`), the prediction,
and the implicit coefficient `c = h0 * alpha[order]`. -/
noncomputable def bdf_init {n : ℕ} (f : ℝ → (Fin n → ℝ) → Fin n → ℝ)
    (t0 : ℝ) (y0 : Fin n → ℝ) (h0 rtol atol : ℝ) : BdfState n :=
  let f0 := f t0 y0
  let D : ℕ → Fin n → ℝ := fun r =>
    if r = 0 then y0 else if r = 1 then (fun i => f0 i * h0) else 0
  let order : ℕ := 1
  let y0pred := predict_y0 order D
  { t := t0
    y := y0
    atol := atol
    rtol := rtol
    order := order
    h := select_initial_step f t0 y0 f0 h0 rtol atol
    newton_tol := max (10 * EPS / rtol) (min (3 / 100) (rtol ^ (1 / 2 : ℝ)))
    n_equal_steps := 0
    D := D
    y0 := y0pred
    scale_y0 := fun i => atol + rtol * |y0pred i|
    psi := update_psi order D
    c := h0 * alphaC order }

/-- The rescaler `_update_step_size` (source lines 249-297): multiply `h`
by `factor`, reset `n_equal_steps`, recompute `c = h * alpha[order]`,
transform the difference table by the masked `RU` matrix, and refresh `psi`
and the prediction.  (The conditional LU refactorisation on lines 266-272
touches only the factorisation, which is not carried by the state.) -/
noncomputable def update_step_size {n : ℕ} (s : BdfState n) (factor : ℝ) :
    BdfState n :=
  let h := s.h * factor
  let D := rescale_D s.order factor s.D
  let y0pred := predict_y0 s.order D
  { s with
    h := h
    n_equal_steps := 0
    c := h * alphaC s.order
    D := D
    psi := update_psi s.order D
    y0 := y0pred
    scale_y0 := fun i => s.atol + s.rtol * |y0pred i| }

/-- The `safety` factor computed after a converged Newton iteration
(source lines 434-435): `0.9 * (2 * NEWTON_MAXITER + 1) /
(2 * NEWTON_MAXITER + n_iter)`. -/
noncomputable def safety (n_iter : ℕ) : ℝ :=
  9 / 10 * (2 * NEWTON_MAXITER + 1) / (2 * NEWTON_MAXITER + n_iter)

/-- The step-shrink factor applied when the local error norm exceeds 1
(source lines 440-445): `max(MIN_FACTOR, safety * error_norm **
(-1 / (order + 1)))`. -/
noncomputable def reject_factor (order n_iter : ℕ) (error_norm : ℝ) : ℝ :=
  max MIN_FACTOR (safety n_iter * error_norm ^ (-1 / ((order : ℝ) + 1)))

/-- First-maximum selection of `np.argmax` (source line 544) on a
three-element array: the least index attaining the maximum. -/
def argmax3 {α : Type} [LinearOrder α] (f0 f1 f2 : α) : ℕ :=
  if f1 ≤ f0 ∧ f2 ≤ f0 then 0 else if f2 ≤ f1 then 1 else 2

/-- The order-change decision of `_bdf_step` (source lines 491-549),
reduced to its selection of the next order.  `error_m_norm_val` and
`error_p_norm_val` are the real error norms the source would compute for
orders `order - 1` and `order + 1`; the source replaces them by `np.inf`
when `order = 1` resp. `order = MAX_ORDER` (lines 516-536), converts the
three norms to step-size factors `error ** (-1 / (k + 1))` (line 540,
with `0 ** neg = inf` and `inf ** neg = 0` as in IEEE arithmetic, which is
`ENNReal.rpow`), picks the first maximum, and moves the order by
`max_index - 1` (line 545).  This definition is the step-size factor for
the candidate order `order - 1`, whose error norm is `np.inf` when
`order = 1` (lines 510-522 of the source). -/
noncomputable def order_factor_m (order : ℕ) (error_m_norm_val : ℝ) : ℝ≥0∞ :=
  (if 1 < order then ENNReal.ofReal error_m_norm_val else ⊤) ^
    (-1 / (order : ℝ))

/-- The step-size factor for keeping the current order, from line 540 of
the source: `error_norm ** (-1 / (order + 1))`. -/
noncomputable def order_factor_k (order : ℕ) (error_norm : ℝ) : ℝ≥0∞ :=
  ENNReal.ofReal error_norm ^ (-1 / ((order : ℝ) + 1))

/-- The step-size factor for the candidate order `order + 1`, from lines
524-536 and 540 of the source: the error norm is `np.inf` when
`order = MAX_ORDER`. -/
noncomputable def order_factor_p (order : ℕ) (error_p_norm_val : ℝ) : ℝ≥0∞ :=
  (if order < MAX_ORDER then ENNReal.ofReal error_p_norm_val else ⊤) ^
    (-1 / ((order : ℝ) + 2))

/-- The new order selected by the order-change branch: `order` plus
`max_index - 1` (source line 545). -/
noncomputable def order_change_order (order : ℕ)
    (error_m_norm_val error_norm error_p_norm_val : ℝ) : ℕ :=
  order +
    argmax3 (order_factor_m order error_m_norm_val)
      (order_factor_k order error_norm)
      (order_factor_p order error_p_norm_val) - 1

/-- The per-accepted-step evolution of the order field in `_bdf_step`
(source lines 553-555): the order is left unchanged while
`n_equal_steps < order + 1`, and otherwise set by the order-change
decision.  Newton failures and error rejections run `_update_step_size`,
which never touches the order. -/
noncomputable def order_after_step (order : ℕ)
    (dec : ℕ × ℝ × ℝ × ℝ) : ℕ :=
  if dec.1 < order + 1 then order
  else order_change_order order dec.2.1 dec.2.2.1 dec.2.2.2

/-- The order after a sequence of accepted steps, each described by its
`n_equal_steps` counter and the three error norms available to the
order-change decision. -/
noncomputable def order_orbit (order : ℕ) (l : List (ℕ × ℝ × ℝ × ℝ)) : ℕ :=
  l.foldl order_after_step order

/-- The `np.searchsorted(t_eval, t)` call of the driver loop (source line
612): on the sorted array `t_eval` with the default left side it returns
the first index whose element is `≥ t`, and the length if there is none. -/
def searchsorted {α : Type} [LinearOrder α] (t_eval : List α) (t : α) : ℕ :=
  t_eval.findIdx (fun x => t ≤ x)

/-- The `t0 = t_eval[0]` read of `_bdf_odeint` (source line 596). -/
def odeint_t0 (t_eval : List ℝ) : ℝ := t_eval.getD 0 0

/-- The implied initial step `h0 = t_eval[1] - t0` of `_bdf_odeint`
(source line 597).  No validation of any kind is applied to it or to
`t_eval` before the stepping loop starts. -/
def odeint_h0 (t_eval : List ℝ) : ℝ := t_eval.getD 1 0 - t_eval.getD 0 0

/-- One iteration of the driver loop of `_bdf_odeint` (source lines
609-625), generic over the stepper: advance the stepper, compute
`index = searchsorted(t_eval, t)`, fill the output slots `i, ..., index-1`
by interpolating at the corresponding requested times, and advance the
output cursor to `index` (the `fori_loop` from `i` to `index` leaves the
cursor unchanged when `index ≤ i`). -/
def odeint_body {α σ β : Type} [LinearOrder α] (step : σ → σ) (tOf : σ → α)
    (interp : σ → α → β) (t_eval : List α) (dflt : α)
    (st : σ × ℕ × (ℕ → Option β)) : σ × ℕ × (ℕ → Option β) :=
  let s := step st.1
  let idx := searchsorted t_eval (tOf s)
  (s, max st.2.1 idx,
    fun j =>
      if st.2.1 ≤ j ∧ j < idx then some (interp s (t_eval.getD j dflt))
      else st.2.2 j)

/-- The driver while loop of `_bdf_odeint` (source lines 605-627) with
explicit fuel: keep stepping while the output cursor has not passed the
last requested time. -/
def odeint_loop {α σ β : Type} [LinearOrder α] (step : σ → σ) (tOf : σ → α)
    (interp : σ → α → β) (t_eval : List α) (dflt : α) :
    ℕ → σ × ℕ × (ℕ → Option β) → σ × ℕ × (ℕ → Option β)
  | 0, st => st
  | fuel + 1, st =>
      if st.2.1 < t_eval.length then
        odeint_loop step tOf interp t_eval dflt fuel
          (odeint_body step tOf interp t_eval dflt st)
      else st

/-- Concrete one-dimensional solver state used to instantiate theorems
with hypotheses at explicit inputs. -/
noncomputable def test_state : BdfState 1 :=
  { t := 0
    y := fun _ => 0
    atol := 1
    rtol := 1
    order := 1
    h := 1
    newton_tol := 3 / 100
    n_equal_steps := 0
    D := fun _ _ => 0
    y0 := fun _ => 0
    scale_y0 := fun _ => 1
    psi := fun _ => 0
    c := 1 }

/-- C4: the claim states that `D` is a `(MAX_ORDER+2) × n` matrix and that
the write to row `order+2` is in bounds for every order in `[1, MAX_ORDER]`.
Both parts fail on the code: `_bdf_init` allocates `MAX_ORDER + 1 = 6` rows
(not `MAX_ORDER + 2 = 7`), and at `order = 4` the write index
`order + 2 = 6` is already out of bounds for the 6-row table. -/
theorem claim4_counterexample : D_rows ≠ MAX_ORDER + 2 ∧ ¬(4 + 2 < D_rows) := by
  decide

/-- C4 (amended): `D` has `MAX_ORDER + 1` rows, so for an order in
`[1, MAX_ORDER]` the access to row `order + 2` performed by the post-step
difference-table update (and by the order-change read) is in bounds exactly
when `order ≤ MAX_ORDER - 2 = 3`. -/
theorem claim4_amended_D_row_bounds (order : ℕ) (h1 : 1 ≤ order)
    (h5 : order ≤ MAX_ORDER) : order + 2 < D_rows ↔ order ≤ 3 := by
  simp only [D_rows, MAX_ORDER] at *
  omega

/-- Witness for `claim4_amended_D_row_bounds` at `order = 2`. -/
theorem claim4_amended_D_row_bounds_witness :
    1 ≤ 2 ∧ 2 ≤ MAX_ORDER ∧ (2 + 2 < D_rows ↔ 2 ≤ 3) :=
  ⟨by decide, by decide, claim4_amended_D_row_bounds 2 (by decide) (by decide)⟩

/-- C9: the order-change decision picks the first maximum of the three
candidate step-size factors, so on exact ties the candidate with the lowest
index — the lowest candidate order — is selected: if the first factor
attains the maximum the answer is 0, if only the second does (possibly tied
with the third) the answer is 1, and the answer is 2 only when the third
factor is strictly largest. -/
theorem claim9_tie_break_first_maximum {α : Type} [LinearOrder α]
    (f0 f1 f2 : α) :
    (f1 ≤ f0 → f2 ≤ f0 → argmax3 f0 f1 f2 = 0) ∧
    (f0 < f1 → f2 ≤ f1 → argmax3 f0 f1 f2 = 1) ∧
    (f0 < f2 → f1 < f2 → argmax3 f0 f1 f2 = 2) := by
  refine ⟨fun h1 h2 => ?_, fun h1 h2 => ?_, fun h1 h2 => ?_⟩ <;> unfold argmax3
  · rw [if_pos ⟨h1, h2⟩]
  · rw [if_neg fun hc => absurd hc.1 (not_le.mpr h1), if_pos h2]
  · rw [if_neg fun hc => absurd hc.2 (not_le.mpr h1),
      if_neg (not_le.mpr h2)]

/-- Witness for `claim9_tie_break_first_maximum` at the three-way tie
`(1, 1, 1)`: the lowest index wins. -/
theorem claim9_tie_break_first_maximum_witness :
    (1 : ℚ) ≤ 1 ∧ argmax3 (1 : ℚ) 1 1 = 0 :=
  ⟨by decide, (claim9_tie_break_first_maximum (1 : ℚ) 1 1).1 (by decide)
    (by decide)⟩

/-- C6: every rejection strictly shrinks the step.  The Newton-failure
path multiplies `h` by 0.3 < 1, and the error-rejection factor
`max(MIN_FACTOR, safety * error_norm ** (-1/(order+1)))` is strictly below
1 whenever `error_norm > 1` and the corrector used at least one iteration,
because `safety ≤ 0.9` and the negative power of `error_norm > 1` is below
1; hence both paths strictly decrease a positive step size. -/
theorem claim6_rejection_strictly_shrinks {n : ℕ} (s : BdfState n)
    (error_norm : ℝ) (n_iter : ℕ) (hh : 0 < s.h) (he : 1 < error_norm)
    (hn : 1 ≤ n_iter) :
    (update_step_size s (3 / 10)).h < s.h ∧
    reject_factor s.order n_iter error_norm < 1 ∧
    (update_step_size s (reject_factor s.order n_iter error_norm)).h < s.h := by
  have hfac : ∀ factor : ℝ, (update_step_size s factor).h = s.h * factor :=
    fun _ => rfl
  have hrf : reject_factor s.order n_iter error_norm < 1 := by
    unfold reject_factor
    apply max_lt
    · unfold MIN_FACTOR; norm_num
    · have hx : error_norm ^ (-1 / ((s.order : ℝ) + 1)) < 1 := by
        apply Real.rpow_lt_one_of_one_lt_of_neg he
        apply div_neg_of_neg_of_pos (by norm_num)
        positivity
      have hxpos : 0 < error_norm ^ (-1 / ((s.order : ℝ) + 1)) :=
        Real.rpow_pos_of_pos (lt_trans one_pos he) _
      have hcast : (1 : ℝ) ≤ (n_iter : ℝ) := by exact_mod_cast hn
      have hs : safety n_iter ≤ 9 / 10 := by
        unfold safety NEWTON_MAXITER
        rw [div_le_iff₀ (by positivity)]
        push_cast
        linarith
      calc safety n_iter * error_norm ^ (-1 / ((s.order : ℝ) + 1))
          ≤ 9 / 10 * error_norm ^ (-1 / ((s.order : ℝ) + 1)) :=
            mul_le_mul_of_nonneg_right hs hxpos.le
        _ < 9 / 10 * 1 := by
            exact mul_lt_mul_of_pos_left hx (by norm_num)
        _ < 1 := by norm_num
  refine ⟨?_, hrf, ?_⟩
  · rw [hfac]
    exact mul_lt_of_lt_one_right hh (by norm_num)
  · rw [hfac]
    exact mul_lt_of_lt_one_right hh hrf

/-- Witness for `claim6_rejection_strictly_shrinks` on the concrete state
`test_state` with `error_norm = 4` and `n_iter = 2`. -/
theorem claim6_rejection_strictly_shrinks_witness :
    (0 : ℝ) < test_state.h ∧ (1 : ℝ) < 4 ∧ 1 ≤ 2 ∧
    reject_factor test_state.order 2 4 < 1 :=
  ⟨by norm_num [test_state], by norm_num, by norm_num,
    (claim6_rejection_strictly_shrinks test_state 4 2
      (by norm_num [test_state]) (by norm_num) (by norm_num)).2.1⟩

theorem argmax3_le_two {α : Type} [LinearOrder α] (f0 f1 f2 : α) :
    argmax3 f0 f1 f2 ≤ 2 := by
  unfold argmax3; split_ifs <;> omega

theorem argmax3_ne_zero_of_left_zero (f2 : ℝ≥0∞) {f0 f1 : ℝ≥0∞}
    (hf0 : f0 = 0) (hf1 : f1 ≠ 0) : argmax3 f0 f1 f2 ≠ 0 := by
  unfold argmax3
  split_ifs with hc hd
  · exact absurd (le_antisymm (hf0 ▸ hc.1) (zero_le _)) hf1
  · decide
  · decide

theorem argmax3_ne_two_of_right_zero (f0 f1 : ℝ≥0∞) {f2 : ℝ≥0∞}
    (hf2 : f2 = 0) : argmax3 f0 f1 f2 ≠ 2 := by
  unfold argmax3
  split_ifs with hc hd
  · decide
  · decide
  · exact absurd (hf2.le.trans (zero_le f1)) hd

theorem order_factor_k_ne_zero (order : ℕ) (e : ℝ) :
    order_factor_k order e ≠ 0 := by
  unfold order_factor_k
  rw [Ne, ENNReal.rpow_eq_zero_iff]
  rintro (⟨_, hy⟩ | ⟨hx, _⟩)
  · have hneg : -1 / ((order : ℝ) + 1) < 0 :=
      div_neg_of_neg_of_pos (by norm_num) (by positivity)
    exact absurd hy (not_lt.mpr hneg.le)
  · exact ENNReal.ofReal_ne_top hx

theorem order_factor_m_one (em : ℝ) : order_factor_m 1 em = 0 := by
  unfold order_factor_m
  rw [if_neg (lt_irrefl 1)]
  exact ENNReal.top_rpow_of_neg (by norm_num)

theorem order_factor_p_max (ep : ℝ) : order_factor_p MAX_ORDER ep = 0 := by
  unfold order_factor_p
  rw [if_neg (lt_irrefl MAX_ORDER)]
  apply ENNReal.top_rpow_of_neg
  norm_num [MAX_ORDER]

theorem order_change_order_mem (order : ℕ) (em e ep : ℝ) (h1 : 1 ≤ order)
    (h5 : order ≤ MAX_ORDER) :
    1 ≤ order_change_order order em e ep ∧
      order_change_order order em e ep ≤ MAX_ORDER := by
  have h2 := argmax3_le_two (order_factor_m order em) (order_factor_k order e)
    (order_factor_p order ep)
  unfold order_change_order
  rcases Nat.lt_or_ge order 2 with ho | ho
  · have ho1 : order = 1 := by omega
    subst ho1
    have hne := argmax3_ne_zero_of_left_zero (order_factor_p 1 ep)
      (order_factor_m_one em) (order_factor_k_ne_zero 1 e)
    simp only [MAX_ORDER] at *
    omega
  · rcases Nat.lt_or_ge order MAX_ORDER with ho5 | ho5
    · simp only [MAX_ORDER] at *
      omega
    · have ho5e : order = MAX_ORDER := le_antisymm h5 ho5
      subst ho5e
      have hne := argmax3_ne_two_of_right_zero (order_factor_m MAX_ORDER em)
        (order_factor_k MAX_ORDER e) (order_factor_p_max ep)
      simp only [MAX_ORDER] at *
      omega

theorem order_orbit_mem (l : List (ℕ × ℝ × ℝ × ℝ)) (order : ℕ)
    (h1 : 1 ≤ order) (h5 : order ≤ MAX_ORDER) :
    1 ≤ order_orbit order l ∧ order_orbit order l ≤ MAX_ORDER := by
  induction l generalizing order with
  | nil => exact ⟨h1, h5⟩
  | cons dec l ih =>
      have hstep : 1 ≤ order_after_step order dec ∧
          order_after_step order dec ≤ MAX_ORDER := by
        unfold order_after_step
        split_ifs
        · exact ⟨h1, h5⟩
        · exact order_change_order_mem order dec.2.1 dec.2.2.1 dec.2.2.2 h1 h5
      exact ih _ hstep.1 hstep.2

/-- C3: for every starting order in `[1, MAX_ORDER]` and every sequence of
accepted steps (each described by its `n_equal_steps` counter and the
error norms seen by the order-change decision; rejections and Newton
failures never touch the order), the order stays in `[1, MAX_ORDER]`: at
`order = 1` the candidate `order - 1` has an infinite error norm, hence a
zero step-size factor, and can never be the first maximum, and at
`order = MAX_ORDER` the candidate `order + 1` likewise can never win. -/
theorem claim3_order_stays_in_range (order : ℕ) (l : List (ℕ × ℝ × ℝ × ℝ))
    (h1 : 1 ≤ order) (h5 : order ≤ MAX_ORDER) :
    (1 ≤ order_orbit order l ∧ order_orbit order l ≤ MAX_ORDER) ∧
    (∀ em e ep : ℝ, 1 ≤ order_change_order 1 em e ep) ∧
    (∀ em e ep : ℝ, order_change_order MAX_ORDER em e ep ≤ MAX_ORDER) := by
  refine ⟨order_orbit_mem l order h1 h5, fun em e ep => ?_, fun em e ep => ?_⟩
  · exact (order_change_order_mem 1 em e ep (by decide) (by decide)).1
  · exact (order_change_order_mem MAX_ORDER em e ep (by decide) (le_refl _)).2

/-- Witness for `claim3_order_stays_in_range` at `order = 1` with one
order-change step seeing unit error norms. -/
theorem claim3_order_stays_in_range_witness :
    1 ≤ 1 ∧ 1 ≤ MAX_ORDER ∧
    (1 ≤ order_orbit 1 [(2, 1, 1, 1)] ∧
      order_orbit 1 [(2, 1, 1, 1)] ≤ MAX_ORDER) :=
  ⟨by decide, by decide,
    (claim3_order_stays_in_range 1 [(2, 1, 1, 1)] (by decide) (by decide)).1⟩

theorem bdf_interpolate_loop_of_time_factor_zero {n : ℕ} (t h t_eval : ℝ)
    (D : ℕ → Fin n → ℝ) (fuel : ℕ) :
    ∀ (j : ℕ) (acc : Fin n → ℝ),
      bdf_interpolate_loop t h t_eval D fuel j 0 acc = acc := by
  induction fuel with
  | zero => intro j acc; rfl
  | succ fuel ih =>
      intro j acc
      rw [bdf_interpolate_loop]
      simp only [zero_mul, zero_smul, add_zero]
      exact ih _ _

/-- At a target time exactly equal to the state's accepted time `t`, the
first time-ratio factor of the interpolant is zero, so the whole loop
contributes nothing and the interpolant returns row 0 of `D`. -/
theorem bdf_interpolate_at_t {n : ℕ} (order : ℕ) (t h : ℝ)
    (D : ℕ → Fin n → ℝ) : bdf_interpolate order t h D t = D 0 := by
  unfold bdf_interpolate
  cases order with
  | zero => rfl
  | succ order =>
      rw [bdf_interpolate_loop]
      simp only [Nat.cast_zero, mul_zero, sub_zero, sub_self, zero_div,
        one_mul, zero_smul, add_zero]
      exact bdf_interpolate_loop_of_time_factor_zero t h t D order 1 (D 0)

theorem update_D_loop_row0 {n : ℕ} (i : ℕ) :
    ∀ D : ℕ → Fin n → ℝ,
      update_D_loop D i 0 = ∑ j ∈ Finset.range (i + 2), D j := by
  induction i with
  | zero =>
      intro D
      rw [update_D_loop]
      simp [Finset.sum_range_succ]
  | succ i ih =>
      intro D
      rw [update_D_loop, ih]
      calc ∑ j ∈ Finset.range (i + 2),
            (fun r => if r = i + 1 then D (i + 1) + D (i + 2) else D r) j
          = (∑ j ∈ Finset.range (i + 1), D j) + (D (i + 1) + D (i + 2)) := by
            rw [Finset.sum_range_succ]
            congr 1
            · refine Finset.sum_congr rfl fun j hj => ?_
              have hlt := Finset.mem_range.mp hj
              exact if_neg (by omega)
            · exact if_pos rfl
        _ = ∑ j ∈ Finset.range (i + 1 + 2), D j := by
            simp only [show i + 1 + 2 = i + 2 + 1 from by omega,
              Finset.sum_range_succ]
            abel

/-- After the post-step difference-table update, row 0 equals the
predicted state plus the final Newton correction, i.e. the accepted state
`y = y0 + d`. -/
theorem update_difference_row0 {n : ℕ} (order : ℕ) (d : Fin n → ℝ)
    (D : ℕ → Fin n → ℝ) :
    update_difference_for_next_step order d D 0 =
      (∑ j ∈ Finset.range (order + 1), D j) + d := by
  unfold update_difference_for_next_step
  rw [update_D_loop_row0, Finset.sum_range_succ]
  congr 1
  · refine Finset.sum_congr rfl fun j hj => ?_
    have hlt := Finset.mem_range.mp hj
    show (if j = order + 1 then d
        else if j = order + 2 then d - D (order + 1) else D j) = D j
    rw [if_neg (by omega), if_neg (by omega)]
  · exact if_pos rfl

theorem predict_y0_eq {n : ℕ} (order : ℕ) (h5 : order ≤ MAX_ORDER)
    (D : ℕ → Fin n → ℝ) :
    predict_y0 order D = ∑ j ∈ Finset.range (order + 1), D j := by
  unfold predict_y0
  rw [← Finset.sum_subset (Finset.range_subset.mpr (by omega : order + 1 ≤ MAX_ORDER + 1))
      (fun j hj hnj => if_neg (by
        simp only [Finset.mem_range] at hnj
        omega))]
  exact Finset.sum_congr rfl fun j hj => if_pos (by
    have := Finset.mem_range.mp hj
    omega)

theorem compute_R_col0 (factor : ℝ) (m : ℕ) :
    compute_R factor m 0 = if m = 0 then 1 else 0 := by
  cases m with
  | zero => simp [compute_R, compute_R_M]
  | succ m =>
      rw [if_neg (Nat.succ_ne_zero m)]
      have h1 : (1 : ℕ) ∈ Finset.range (m + 1 + 1) := by simp
      exact Finset.prod_eq_zero h1 (by simp [compute_R_M])

theorem RU_masked_col0 (order : ℕ) (factor : ℝ) (k : ℕ) :
    RU_masked order factor k 0 = if k = 0 then 1 else 0 := by
  unfold RU_masked
  by_cases hk : k ≤ order ∧ 0 ≤ order
  · rw [if_pos hk]
    rw [Finset.sum_congr rfl
      (fun m _ => show compute_R factor k m * compute_R 1 m 0 =
          if m = 0 then compute_R factor k 0 else 0 by
        rw [compute_R_col0]
        by_cases hm0 : m = 0
        · subst hm0; simp
        · rw [if_neg hm0, if_neg hm0, mul_zero])]
    rw [Finset.sum_ite_eq' (Finset.range (MAX_ORDER + 1)) 0
      (fun _ => compute_R factor k 0)]
    rw [if_pos (by simp [MAX_ORDER]), compute_R_col0]
  · rw [if_neg hk]

/-- The step-size rescaling of the difference table leaves row 0 — the
accepted state — unchanged: column 0 of the masked `RU` matrix is the
first standard basis vector. -/
theorem rescale_D_row0 {n : ℕ} (order : ℕ) (factor : ℝ)
    (D : ℕ → Fin n → ℝ) : rescale_D order factor D 0 = D 0 := by
  unfold rescale_D
  rw [if_pos (by simp [MAX_ORDER])]
  rw [Finset.sum_congr rfl
    (fun k _ => show RU_masked order factor k 0 • D k =
        if k = 0 then D 0 else 0 by
      rw [RU_masked_col0]
      by_cases hk0 : k = 0
      · subst hk0; simp
      · rw [if_neg hk0, if_neg hk0, zero_smul])]
  rw [Finset.sum_ite_eq' (Finset.range (MAX_ORDER + 1)) 0 (fun _ => D 0)]
  rw [if_pos (by simp [MAX_ORDER])]

/-- C5: interpolating at a target time exactly equal to the accepted time
returns exactly the accepted state.  After an accepted step with final
Newton correction `d`, the accepted state is `y = y0 + d` (source lines
350 and 477) with `y0` the prediction; the post-step difference-table
update puts exactly this vector in row 0 of `D`, the order-change
rescaling preserves row 0, and the interpolant evaluated at the accepted
time `t + h` returns row 0 because its first time-ratio factor vanishes. -/
theorem claim5_interp_at_accepted_time {n : ℕ} (s : BdfState n)
    (d : Fin n → ℝ) (h5 : s.order ≤ MAX_ORDER) :
    bdf_interpolate s.order (s.t + s.h) s.h
        (update_difference_for_next_step s.order d s.D) (s.t + s.h) =
      predict_y0 s.order s.D + d ∧
    ∀ neworder : ℕ, ∀ factor h2 : ℝ, ∀ order2 : ℕ,
      bdf_interpolate order2 (s.t + s.h) h2
          (rescale_D neworder factor
            (update_difference_for_next_step s.order d s.D)) (s.t + s.h) =
        predict_y0 s.order s.D + d := by
  have hrow0 : update_difference_for_next_step s.order d s.D 0 =
      predict_y0 s.order s.D + d := by
    rw [update_difference_row0, predict_y0_eq s.order h5]
  constructor
  · rw [bdf_interpolate_at_t, hrow0]
  · intro neworder factor h2 order2
    rw [bdf_interpolate_at_t, rescale_D_row0, hrow0]

/-- Witness for `claim5_interp_at_accepted_time` on `test_state` with the
correction vector constantly 1. -/
theorem claim5_interp_at_accepted_time_witness :
    test_state.order ≤ MAX_ORDER ∧
    bdf_interpolate test_state.order (test_state.t + test_state.h)
        test_state.h
        (update_difference_for_next_step test_state.order (fun _ => 1)
          test_state.D) (test_state.t + test_state.h) =
      predict_y0 test_state.order test_state.D + fun _ => 1 :=
  ⟨by norm_num [test_state, MAX_ORDER],
    (claim5_interp_at_accepted_time test_state (fun _ => 1)
      (by norm_num [test_state, MAX_ORDER])).1⟩

theorem bdf_init_h {n : ℕ} (f : ℝ → (Fin n → ℝ) → Fin n → ℝ)
    (t0 : ℝ) (y0 : Fin n → ℝ) (h0 rtol atol : ℝ) :
    (bdf_init f t0 y0 h0 rtol atol).h =
      select_initial_step f t0 y0 (f t0 y0) h0 rtol atol := rfl

theorem select_initial_step_h0_zero {n : ℕ}
    (f : ℝ → (Fin n → ℝ) → Fin n → ℝ) (t0 : ℝ) (y0 f0 : Fin n → ℝ)
    (rtol atol : ℝ) : select_initial_step f t0 y0 f0 0 rtol atol = 0 := by
  unfold select_initial_step
  simp

/-- C7: the claim states that a degenerate configuration (implied initial
step `t_eval[1] - t_eval[0] ≤ 0`) makes the call fail with an error before
the stepping loop starts.  The code performs no validation at all: on
`t_eval = [1, 1]` the implied step is `0`, not positive, the driver-loop
guard `i < len(t_eval)` holds at entry, and initialization completes
normally, producing an order-1 state with step size `0` that the stepping
loop will then use. -/
theorem claim7_counterexample :
    odeint_h0 [1, 1] = 0 ∧ ¬0 < odeint_h0 [1, 1] ∧
    (0 : ℕ) < ([(1 : ℝ), 1] : List ℝ).length ∧
    (bdf_init (fun _ _ => 0) (odeint_t0 [1, 1]) (fun _ : Fin 1 => (0 : ℝ))
        (odeint_h0 [1, 1]) 1 1).h = 0 ∧
    (bdf_init (fun _ _ => 0) (odeint_t0 [1, 1]) (fun _ : Fin 1 => (0 : ℝ))
        (odeint_h0 [1, 1]) 1 1).order = 1 := by
  have hh0 : odeint_h0 [1, 1] = 0 := by
    simp [odeint_h0]
  refine ⟨hh0, by rw [hh0]; exact lt_irrefl 0, by norm_num, ?_, rfl⟩
  rw [bdf_init_h, hh0]
  exact select_initial_step_h0_zero _ _ _ _ _ _

/-- C7 (amended): no eager rejection happens.  The entry point computes
`h0 = t_eval[1] - t_eval[0]` with no validation and proceeds into
initialization and the stepping loop; a nonpositive implied step yields a
fully initialized order-1 state whose refined step size
`min(100 * h0, h0 * d2 ** (-1/2))` is again nonpositive, and integration
proceeds with it instead of failing. -/
theorem claim7_amended_no_validation {n : ℕ}
    (f : ℝ → (Fin n → ℝ) → Fin n → ℝ) (t0 : ℝ) (y0 : Fin n → ℝ)
    (h0 rtol atol : ℝ) (hdeg : h0 ≤ 0) :
    (bdf_init f t0 y0 h0 rtol atol).h ≤ 0 ∧
    (bdf_init f t0 y0 h0 rtol atol).order = 1 := by
  refine ⟨?_, rfl⟩
  rw [bdf_init_h]
  unfold select_initial_step
  refine le_trans (min_le_left _ _) ?_
  nlinarith

/-- Witness for `claim7_amended_no_validation` with the zero right-hand
side and implied step `-1`. -/
theorem claim7_amended_no_validation_witness :
    (-1 : ℝ) ≤ 0 ∧
    (bdf_init (fun _ _ => 0) 0 (fun _ : Fin 1 => (0 : ℝ)) (-1) 1 1).h ≤ 0 :=
  ⟨by norm_num,
    (claim7_amended_no_validation (fun _ _ => 0) 0 (fun _ : Fin 1 => (0 : ℝ))
      (-1) 1 1 (by norm_num)).1⟩

theorem bdf_init_D {n : ℕ} (f : ℝ → (Fin n → ℝ) → Fin n → ℝ)
    (t0 : ℝ) (y0 : Fin n → ℝ) (h0 rtol atol : ℝ) :
    (bdf_init f t0 y0 h0 rtol atol).D = fun r =>
      if r = 0 then y0 else if r = 1 then (fun i => f t0 y0 i * h0) else 0 :=
  rfl

/-- C8: the claim states that after initialization row 1 of `D` equals
`h * f(t0, y0)` where `h` is the refined initial step stored in the state.
Row 0 does hold `y0`, but the code fills row 1 with `f0 * h0` using the
unrefined guess `h0` (source line 118) while storing the refined
`_select_initial_step` value as the step (line 111); the implicit
coefficient `c` also uses `h0` (line 130).  On the input
`f(t, y) = 16 t + 1`, `t0 = 0`, `y0 = 0`, `h0 = 1`, `rtol = atol = 1` the
forward-Euler trial gives `d2 = sqrt(16) = 4` and the stored step is
`min(100, 4 ** (-1/2)) = 1/2`, yet row 1 of `D` is `1`, not
`h * f0 = 1/2`. -/
theorem claim8_D_row1_uses_unrefined_step :
    (bdf_init (fun t _ => fun _ : Fin 1 => 16 * t + 1) 0 (fun _ => 0)
        1 1 1).h = 1 / 2 ∧
    (bdf_init (fun t _ => fun _ : Fin 1 => 16 * t + 1) 0 (fun _ => 0)
        1 1 1).D 0 0 = 0 ∧
    (bdf_init (fun t _ => fun _ : Fin 1 => 16 * t + 1) 0 (fun _ => 0)
        1 1 1).D 1 0 = 1 ∧
    (bdf_init (fun t _ => fun _ : Fin 1 => 16 * t + 1) 0 (fun _ => 0)
        1 1 1).D 1 0 ≠
      (bdf_init (fun t _ => fun _ : Fin 1 => 16 * t + 1) 0 (fun _ => 0)
          1 1 1).h * (16 * 0 + 1) := by
  have hh : (bdf_init (fun t _ => fun _ : Fin 1 => 16 * t + 1) 0 (fun _ => 0)
      1 1 1).h = 1 / 2 := by
    rw [bdf_init_h]
    unfold select_initial_step
    norm_num [Fin.sum_univ_one]
    rw [show Real.sqrt 16 = 4 from by
        rw [show (16 : ℝ) = 4 ^ 2 by norm_num,
          Real.sqrt_sq (by norm_num : (0 : ℝ) ≤ 4)],
      Real.rpow_neg (by norm_num : (0 : ℝ) ≤ 4), ← Real.sqrt_eq_rpow]
    rw [show Real.sqrt 4 = 2 from by
        rw [show (4 : ℝ) = 2 ^ 2 by norm_num,
          Real.sqrt_sq (by norm_num : (0 : ℝ) ≤ 2)]]
    norm_num
  have hD : (bdf_init (fun t _ => fun _ : Fin 1 => 16 * t + 1) 0 (fun _ => 0)
      1 1 1).D 1 0 = 1 := by
    rw [bdf_init_D]
    norm_num
  refine ⟨hh, ?_, hD, ?_⟩
  · rw [bdf_init_D]
    norm_num
  · rw [hh, hD]
    norm_num

theorem newton_loop_succ {α : Type} [LinearOrderedField α] (tol : α)
    (dyn : ℕ → α) (fuel i : ℕ) (s : NewtonState α) :
    newton_loop tol dyn (fuel + 1) i s =
      if s.not_converged = true ∧ s.k < NEWTON_MAXITER then
        newton_loop tol dyn fuel (i + 1) (newton_body tol (dyn i) s)
      else s := rfl

/-- C1: the claim states that the corrector never declares convergence on
an iteration with `rate ≥ 1`.  The code does: its convergence predicate is
`rate > 0 and rate / (1 - rate) * dy_norm < tol` (source lines 353-355)
with no `rate < 1` guard, and the divergence check that should catch
`rate ≥ 1` first (lines 344-346) is dead because it is conjoined with
`dy_norm_old < -1`, which is false on every iteration.  So for
`rate > 1` the projected error `rate / (1 - rate) * dy_norm` is negative,
trivially below any tolerance, and convergence is declared: on the
iteration with previous norm 2, current norm 3 (so `rate = 3/2 ≥ 1`) and
`newton_tol = 1/100`, the loop body clears the `not_converged` flag. -/
theorem claim1_convergence_declared_at_diverging_rate :
    (1 : ℝ) ≤ 3 / 2 ∧
    (newton_body (1 / 100 : ℝ) 3 ⟨1, true, 2⟩).not_converged = false := by
  constructor
  · norm_num
  · norm_num [newton_body, NEWTON_MAXITER]

/-- C2: the claim states that an iteration with `rate ≥ 1` (or with a
geometric projection exceeding the tolerance) makes the corrector abort
early and report non-convergence.  The abort predicate (source lines
344-346) is multiplied by `dy_norm_old < -1`, which is false on every
iteration (`dy_norm_old` is the sentinel -1 initially and a nonnegative
norm afterwards), so the corrector never aborts; worse, with the scaled
correction norms 1 then 2 (so `rate = 2 ≥ 1` on the second iteration) and
`newton_tol = 1/100` it declares convergence after 2 iterations instead of
reporting non-convergence. -/
theorem claim2_no_early_abort_on_divergence :
    newton_iteration (1 / 100 : ℝ)
      (fun i (_ : Fin 1) => if i = 0 then (1 : ℝ) else 2) (fun _ => 1) =
      (false, 2) := by
  have h0 : rms_norm (fun _ : Fin 1 => (1 : ℝ)) (fun _ => 1) = 1 := by
    simp [rms_norm]
  have h1 : rms_norm (fun _ : Fin 1 => (2 : ℝ)) (fun _ => 1) = 2 := by
    rw [rms_norm]
    norm_num [Fin.sum_univ_one]
    rw [show (4 : ℝ) = 2 ^ 2 by norm_num,
      Real.sqrt_sq (by norm_num : (0 : ℝ) ≤ 2)]
  have hdyn : (fun i => rms_norm
      ((fun i (_ : Fin 1) => if i = 0 then (1 : ℝ) else 2) i) (fun _ => 1)) =
      fun i => if i = 0 then (1 : ℝ) else 2 := by
    funext i
    by_cases hi : i = 0
    · subst hi
      simpa using h0
    · simp only [hi, if_false]
      simpa [hi] using h1
  have hb0 : newton_body (1 / 100 : ℝ) 1 ⟨0, true, -1⟩ = ⟨1, true, 1⟩ := by
    norm_num [newton_body, NEWTON_MAXITER]
  have hb1 : newton_body (1 / 100 : ℝ) 2 ⟨1, true, 1⟩ = ⟨1, false, 1⟩ := by
    norm_num [newton_body, NEWTON_MAXITER]
  unfold newton_iteration
  rw [hdyn]
  simp only [NEWTON_MAXITER]
  rw [show (4 : ℕ) = 3 + 1 by norm_num, newton_loop_succ]
  rw [if_pos ⟨rfl, by norm_num [NEWTON_MAXITER]⟩]
  norm_num [hb0]
  rw [show (3 : ℕ) = 2 + 1 by norm_num, newton_loop_succ]
  rw [if_pos ⟨rfl, by norm_num [NEWTON_MAXITER]⟩]
  norm_num [hb1]
  rw [show (2 : ℕ) = 1 + 1 by norm_num, newton_loop_succ]
  rw [if_neg (by simp)]
  exact ⟨rfl, rfl⟩

theorem searchsorted_le_length {α : Type} [LinearOrder α] (l : List α)
    (t : α) : searchsorted l t ≤ l.length :=
  List.findIdx_le_length _

theorem getD_lt_of_lt_searchsorted {α : Type} [LinearOrder α]
    (l : List α) (t d : α) :
    ∀ j, j < searchsorted l t → l.getD j d < t := by
  induction l with
  | nil =>
      intro j hj
      simp [searchsorted] at hj
  | cons x xs ih =>
      intro j hj
      unfold searchsorted at hj
      rw [List.findIdx_cons] at hj
      by_cases hx : t ≤ x
      · simp [hx] at hj
      · simp only [hx, decide_False, cond_false] at hj
        cases j with
        | zero => exact not_le.mp hx
        | succ j =>
            rw [List.getD_cons_succ]
            refine ih j ?_
            unfold searchsorted
            omega

theorem searchsorted_le_of_le {α : Type} [LinearOrder α]
    (l : List α) (t d : α) :
    ∀ j, j < l.length → t ≤ l.getD j d → searchsorted l t ≤ j := by
  induction l with
  | nil =>
      intro j hj
      simp at hj
  | cons x xs ih =>
      intro j hj hle
      unfold searchsorted
      rw [List.findIdx_cons]
      by_cases hx : t ≤ x
      · simp [hx]
      · cases j with
        | zero => exact absurd hle hx
        | succ j =>
            simp only [hx, decide_False, cond_false]
            have hih := ih j (by simpa using hj) (by simpa using hle)
            unfold searchsorted at hih
            omega

theorem searchsorted_eq_length_iff {α : Type} [LinearOrder α]
    (l : List α) (t : α) :
    searchsorted l t = l.length ↔ ∀ x ∈ l, x < t := by
  induction l with
  | nil => simp [searchsorted]
  | cons x xs ih =>
      unfold searchsorted
      rw [List.findIdx_cons]
      by_cases hx : t ≤ x
      · simp only [hx, decide_True, cond_true, List.length_cons]
        constructor
        · intro h; omega
        · intro h
          exact absurd (h x (List.mem_cons_self x xs)) (not_lt.mpr hx)
      · simp only [hx, decide_False, cond_false, List.length_cons]
        unfold searchsorted at ih
        constructor
        · intro h
          intro y hy
          rcases List.mem_cons.mp hy with rfl | hy
          · exact not_le.mp hx
          · exact (ih.mp (by omega)) y hy
        · intro h
          have hlen := ih.mpr (fun y hy => h y (List.mem_cons_of_mem x hy))
          omega

/-- C10: after each step, the driver loop interpolates exactly the pending
output times that are strictly less than the new accepted time (the
`searchsorted` call uses the default left side, which excludes times equal
to the accepted time, so such a time is only produced by a later step),
advances the output cursor to the searchsorted index, and exits the
stepping loop only once every requested time is strictly below the
accepted time. -/
theorem claim10_driver_interpolates_pending_times {α σ β : Type}
    [LinearOrder α] (step : σ → σ) (tOf : σ → α) (interp : σ → α → β)
    (t_eval : List α) (dflt : α) (s : σ) (i : ℕ) (out : ℕ → Option β) :
    (∀ j, i ≤ j → j < searchsorted t_eval (tOf (step s)) →
      (odeint_body step tOf interp t_eval dflt (s, i, out)).2.2 j =
          some (interp (step s) (t_eval.getD j dflt)) ∧
        t_eval.getD j dflt < tOf (step s)) ∧
    (∀ j, j < t_eval.length → tOf (step s) ≤ t_eval.getD j dflt →
      (odeint_body step tOf interp t_eval dflt (s, i, out)).2.2 j = out j) ∧
    (odeint_body step tOf interp t_eval dflt (s, i, out)).2.1 =
      max i (searchsorted t_eval (tOf (step s))) ∧
    (searchsorted t_eval (tOf (step s)) = t_eval.length ↔
      ∀ x ∈ t_eval, x < tOf (step s)) := by
  refine ⟨fun j h1 h2 => ⟨?_, ?_⟩, fun j h1 h2 => ?_, rfl,
    searchsorted_eq_length_iff t_eval (tOf (step s))⟩
  · show (if i ≤ j ∧ j < searchsorted t_eval (tOf (step s)) then _ else _) = _
    rw [if_pos ⟨h1, h2⟩]
  · exact getD_lt_of_lt_searchsorted t_eval (tOf (step s)) dflt j h2
  · show (if i ≤ j ∧ j < searchsorted t_eval (tOf (step s)) then _ else _) = _
    rw [if_neg]
    rintro ⟨-, hlt⟩
    exact absurd (searchsorted_le_of_le t_eval (tOf (step s)) dflt j h1 h2)
      (by omega)

/-- Witness for `claim10_driver_interpolates_pending_times`: with requested
times `[0, 2]` and a step landing at time 2, the pending time `0 < 2` is
interpolated into slot 0, while the time `2`, equal to the accepted time,
is not. -/
theorem claim10_driver_interpolates_pending_times_witness :
    0 < searchsorted [0, 2] 2 ∧
    (odeint_body (fun s : ℕ => s + 2) id (fun s t => (s, t)) [0, 2] 0
        (0, 0, fun _ => none)).2.2 0 = some (2, 0) ∧ (0 : ℕ) < 2 := by
  have h := (claim10_driver_interpolates_pending_times (fun s : ℕ => s + 2)
      id (fun s t => (s, t)) [0, 2] 0 0 0 (fun _ => none)).1 0 (le_refl 0)
      (by decide)
  exact ⟨by decide, by simpa using h.1, by decide⟩

end JaxBdf
